import Mathlib

/-!
Verification of the diary/plan bot (`diary_bot_v2.py`).

The development shallowly embeds the pure core of the program:

* the plan-entry parser of `enter_plans` (lines 674-714),
* the notification-time validation of `handle_time_input` (lines 818-861),
* the itog (evening review) engine: `start_itog` (439-477),
  `handle_itog_response` (479-554) and
  `apply_itog_results_to_plans` (427-437),
* the per-tick notification scheduler `notification_scheduler`
  (1115-1158) together with `send_daily_notification` (1011-1072)
  and `send_daily_summary` (1074-1113).

Strings are modelled with Lean `String`/`List Char`; the Python string
primitives used by the source (`str.strip`, `str.split`, `int(...)`)
are re-implemented faithfully for ASCII input (Python additionally
accepts non-ASCII digits and whitespace, which the bot's keyboards
never produce).  Transport-side bookkeeping (Telegram message ids,
best-effort deletions) is presentation only and carries no state the
claims depend on; it is not modelled.  Outbound delivery is modelled
by an `unreachable` predicate: a send to an unreachable chat raises,
which is observable exactly where the source has no enclosing
`try`/`except`.
-/

/-- Python `str.isspace` on the ASCII whitespace characters
(space, tab, newline, carriage return, vertical tab, form feed). -/
def pyIsSpace (c : Char) : Bool :=
  c == ' ' || c == '\t' || c == '\n' || c == '\r' || c == '\x0b' || c == '\x0c'

/-- Python `str.strip()` on a character list: drop leading and trailing
whitespace. -/
def stripCore (l : List Char) : List Char :=
  ((l.dropWhile pyIsSpace).reverse.dropWhile pyIsSpace).reverse

/-- Python `str.strip()`. -/
def pyStrip (s : String) : String := ⟨stripCore s.data⟩

/-- Python `str.split(sep)` for a one-character separator: split at every
occurrence of `sep`, keeping empty segments (so `"".split(';') = ['']`). -/
def splitOnCharCore (sep : Char) : List Char → List (List Char)
  | [] => [[]]
  | c :: rest =>
    if c = sep then [] :: splitOnCharCore sep rest
    else
      match splitOnCharCore sep rest with
      | [] => [[c]]
      | s :: ss => (c :: s) :: ss

/-- Python `str.split(maxsplit=1)` (no separator argument): discard leading
whitespace, take the first whitespace-free token, then the remainder after
the separating whitespace run; empty pieces are dropped. -/
def pySplitWs1 (l : List Char) : List (List Char) :=
  let l0 := l.dropWhile pyIsSpace
  if l0 = [] then []
  else
    let tok := l0.takeWhile (fun c => !pyIsSpace c)
    let rest := (l0.dropWhile (fun c => !pyIsSpace c)).dropWhile pyIsSpace
    if rest = [] then [tok] else [tok, rest]

/-- Numeric value of a list of ASCII digit characters. -/
def digitsToNat (l : List Char) : Nat :=
  l.foldl (fun a c => a * 10 + (c.toNat - 48)) 0

/-- Helper for `pyDigitsVal`: remaining digits, where a single `_` may
separate two digits (Python numeric-literal underscores). -/
def pyDigitsAux : Nat → List Char → Option Nat
  | acc, [] => some acc
  | acc, '_' :: c :: rest =>
    if c.isDigit then pyDigitsAux (acc * 10 + (c.toNat - 48)) rest else none
  | acc, c :: rest =>
    if c.isDigit then pyDigitsAux (acc * 10 + (c.toNat - 48)) rest else none

/-- Digit-sequence parser of Python `int(...)`: at least one digit, with
optional single underscores between digits. -/
def pyDigitsVal : List Char → Option Nat
  | [] => none
  | c :: rest => if c.isDigit then pyDigitsAux (c.toNat - 48) rest else none

/-- Python `int(s)` on ASCII input: strip whitespace, optional sign, then a
digit sequence; `none` models the `ValueError`. -/
def pyIntCore (l : List Char) : Option Int :=
  match stripCore l with
  | '+' :: rest => (pyDigitsVal rest).map Int.ofNat
  | '-' :: rest => (pyDigitsVal rest).map (fun n => -(n : Int))
  | rest => (pyDigitsVal rest).map Int.ofNat

/-- Python `int(s)` on a `String`. -/
def pyInt (s : String) : Option Int := pyIntCore s.data

/-- Python `f"{n:02d}"` for `0 ≤ n ≤ 99`, as a character list. -/
def pad2 (n : Nat) : List Char :=
  [Char.ofNat (48 + n / 10), Char.ofNat (48 + n % 10)]

/-- The zero-padded rendering `f"{hour:02d}:{minute:02d}"` used when the bot
stores `notification_time`. -/
def timeString (hour minute : Nat) : String :=
  ⟨pad2 hour ++ ':' :: pad2 minute⟩

-- ========== Data model ==========

/-- One plan entry.  `item` is the dict form `{"time": ..., "text": ...}`
produced by `enter_plans`; `legacy` is a bare string entry, which older data
may contain (the source guards the reminder path with `isinstance(plan, dict)`
and renders bare strings with `str(plan)`). -/
inductive Plan
  | item (time : Option String) (text : String)
  | legacy (s : String)
deriving DecidableEq, Repr

/-- The persisted `itog_state` sub-record created by `start_itog`
(`diary_bot_v2.py` lines 466-474).  The transient Telegram message ids
(`list_message_id`, `question_message_id`) are transport bookkeeping and are
not modelled. -/
structure ItogState where
  date : String
  day_name : String
  plans : List Plan
  current_index : Nat
  completed : List Nat
deriving DecidableEq, Repr

/-- The persisted per-user profile record, restricted to the fields the
scheduler and the itog engine read or write.  `fired` is the set of dynamic
`sent_<date>_<time>_<text>` keys the scheduler sets to `True` in the profile
dict (modelled as the list of keys present and truthy). -/
structure UserData where
  timezone : String
  notification_time : Option String
  plans : String → List Plan
  setup_complete : Bool
  last_summary_date : Option String
  itog_state : Option ItogState
  fired : List String

/-- The current instant projected into one timezone, as the scheduler
observes it: weekday index, `strftime("%Y-%m-%d")`, `strftime("%d.%m.%Y")`,
and the minute `f"{hour:02d}:{minute:02d}"`. -/
structure LocalTime where
  weekday : Fin 7
  dateKey : String
  dateText : String
  hhmm : String

/-- `DAYS_OF_WEEK` (line 26). -/
def DAYS_OF_WEEK : List String :=
  ["Понедельник", "Вторник", "Среда", "Четверг", "Пятница", "Суббота", "Воскресенье"]

/-- `SUMMARY_TIME` (line 29). -/
def SUMMARY_TIME : String := "23:59"

/-- `DAYS_OF_WEEK[now.weekday()]`. -/
def todayName (lt : LocalTime) : String := DAYS_OF_WEEK.getD lt.weekday ""

/-- Conversation-handler states relevant to the claims. -/
inductive ConvState
  | mainMenu
  | itogReview
deriving DecidableEq, Repr

-- ========== Plan-entry parsing (`enter_plans`, lines 674-714) ==========

/-- Parse one raw `;`-separated item (`enter_plans` lines 695-710): split on
the first whitespace run; when there are two parts and the first is a
5-character `HH:MM` token (colon at position 2, both halves numeric, hour at
most 23, minute at most 59) the item is timed, otherwise it is stored with
`time = None` and the full item as text. -/
def parseRawItemCore (itm : List Char) : Plan :=
  match pySplitWs1 itm with
  | [t, rest] =>
    if t.length = 5 ∧ t.getD 2 ' ' = ':' ∧
        (t.take 2).all Char.isDigit = true ∧ (t.drop 3).all Char.isDigit = true then
      if digitsToNat (t.take 2) ≤ 23 ∧ digitsToNat (t.drop 3) ≤ 59 then
        Plan.item (some ⟨t⟩) ⟨rest⟩
      else Plan.item none ⟨itm⟩
    else Plan.item none ⟨itm⟩
  | _ => Plan.item none ⟨itm⟩

/-- The parsing block of `enter_plans` (lines 679, 693-711): strip the
message, split on `;`, strip each raw item, drop empty ones, and parse each
remaining item. -/
def parsePlansCore (text : List Char) : List Plan :=
  let raw := ((splitOnCharCore ';' (stripCore text)).map stripCore).filter
    (fun i => !i.isEmpty)
  raw.map parseRawItemCore

/-- `enter_plans` parsing on a `String` message. -/
def enterPlansParse (s : String) : List Plan := parsePlansCore s.data

-- ========== Notification-time input (`handle_time_input`, lines 818-861) ==========

/-- The validation of `handle_time_input` (lines 822, 826-835): strip the
message, split on `:`, require exactly two parts, convert each with
`int(...)`, require `0 ≤ hour ≤ 23` and `0 ≤ minute ≤ 59`; on success the
stored value is `f"{hour:02d}:{minute:02d}"`, on any failure (`ValueError`)
the input is rejected (`none`). -/
def handleTimeInput (input : String) : Option String :=
  match (splitOnCharCore ':' (stripCore input.data)).map (fun l => pyIntCore l) with
  | [some h, some m] =>
    if 0 ≤ h ∧ h ≤ 23 ∧ 0 ≤ m ∧ m ≤ 59 then
      some (timeString h.toNat m.toNat)
    else none
  | _ => none

-- ========== Itog engine (lines 427-554) ==========

/-- Lowercasing of `str.lower()` restricted to the character ranges the bot
compares (`ASCII` letters and the Cyrillic letters of "Да"/"Нет"). -/
def pyLowerChar (c : Char) : Char :=
  if 'A' ≤ c ∧ c ≤ 'Z' then Char.ofNat (c.toNat + 32)
  else if 'А' ≤ c ∧ c ≤ 'Я' then Char.ofNat (c.toNat + 32)
  else if c = 'Ё' then 'ё'
  else c

/-- `update.message.text.strip().lower()` (line 513). -/
def normalizeAnswer (s : String) : String := ⟨(stripCore s.data).map pyLowerChar⟩

/-- Python `completed = set(state['completed']); completed.add(n);
list(completed)` (lines 517-519), modelled up to the (unspecified) iteration
order of the set: the index is appended when absent. -/
def pySetAdd (l : List Nat) (n : Nat) : List Nat :=
  if n ∈ l then l else l ++ [n]

/-- Update one day of the weekly `plans` dict. -/
def updatePlans (f : String → List Plan) (day : String) (v : List Plan) :
    String → List Plan :=
  fun d => if d = day then v else f d

/-- The list comprehension of `apply_itog_results_to_plans` (line 436):
keep the snapshot entries whose position is not a completed index. -/
def removeCompleted (snapshot : List Plan) (completed : List Nat) : List Plan :=
  (snapshot.enum.filter (fun ip => decide (ip.1 ∉ completed))).map Prod.snd

/-- `apply_itog_results_to_plans` (lines 427-437): with a truthy day name,
snapshot and completed set, overwrite the live `plans[day_name]` with the
snapshot entries at non-completed positions; otherwise do nothing. -/
def applyItogResultsToPlans (u : UserData) (st : ItogState) : UserData :=
  if st.day_name = "" ∨ st.plans = [] ∨ st.completed = [] then u
  else { u with plans := updatePlans u.plans st.day_name (removeCompleted st.plans st.completed) }

/-- `start_itog` (lines 439-477) for a registered user: take today's plan
list; when it is empty, report and return to the main menu without touching
`itog_state`; otherwise snapshot it into a fresh `itog_state` with
`current_index = 0` and no completed indices (after the best-effort teardown
of a prior session's transient messages, which is transport only). -/
def startItog (u : UserData) (lt : LocalTime) : UserData × ConvState :=
  let dayName := todayName lt
  let todayPlans := u.plans dayName
  if todayPlans = [] then (u, ConvState.mainMenu)
  else
    ({ u with itog_state := some ⟨lt.dateText, dayName, todayPlans, 0, []⟩ },
      ConvState.itogReview)

/-- `handle_itog_response` (lines 479-554): with no active session, return to
the main menu; with an empty snapshot (defensive check) discard the session;
with `current_index` already past the end, apply results and clear; otherwise
record a "да" answer as completed, advance `current_index`, and either finish
(apply results, clear the session) or continue with the next question. -/
def handleItogResponse (u : UserData) (answer : String) : UserData × ConvState :=
  match u.itog_state with
  | none => (u, ConvState.mainMenu)
  | some st =>
    if st.plans = [] then
      ({ u with itog_state := none }, ConvState.mainMenu)
    else if st.plans.length ≤ st.current_index then
      let u' := applyItogResultsToPlans u st
      ({ u' with itog_state := none }, ConvState.mainMenu)
    else
      let st1 :=
        if normalizeAnswer answer = "да" then
          { st with completed := pySetAdd st.completed st.current_index }
        else st
      let st2 := { st1 with current_index := st.current_index + 1 }
      if st.plans.length ≤ st2.current_index then
        let u' := applyItogResultsToPlans u st2
        ({ u' with itog_state := none }, ConvState.mainMenu)
      else
        ({ u with itog_state := some st2 }, ConvState.itogReview)

/-- Feed a sequence of answers to `handle_itog_response`, keeping the profile. -/
def runAnswers (u : UserData) (answers : List String) : UserData :=
  answers.foldl (fun v a => (handleItogResponse v a).1) u

-- ========== Notification scheduler (lines 1011-1158) ==========

/-- Events observable on the transport during a scheduler tick. -/
inductive Event
  | brief (uid : String)
  | reminder (uid : String) (time text : String)
  | summary (uid : String)
deriving DecidableEq, Repr

/-- The dynamic dedup key `f"sent_{today_key}_{plan['time']}_{plan['text']}"`
(line 1136). -/
def mkKey (dateKey time text : String) : String :=
  "sent_" ++ dateKey ++ "_" ++ time ++ "_" ++ text

/-- `user_data.get('notification_time') or '09:00'` (line 1122): the stored
time, falling back to `"09:00"` when it is `None` (or empty, Python
truthiness). -/
def effectiveNotifTime (u : UserData) : String :=
  match u.notification_time with
  | none => "09:00"
  | some t => if t = "" then "09:00" else t

/-- Result of the per-item reminder loop: events sent, resulting fired-key
set, and whether the loop completed (`ok = false` models an uncaught
exception from `bot.send_message`). -/
structure RemRes where
  events : List Event
  fired : List String
  ok : Bool
deriving Repr

/-- The per-item reminder loop of `notification_scheduler` (lines 1134-1144):
for each dict plan item whose time equals the current minute, skip it when
its dedup key is already set; otherwise send the reminder and set the key
(persisted immediately).  The send is not wrapped in `try`/`except`, so with
`deliverOk = false` the first attempted send raises and the loop stops with
the key unset. -/
def runReminders (deliverOk : Bool) (uid dateKey hhmm : String) :
    List Plan → List String → RemRes
  | [], fired => ⟨[], fired, true⟩
  | Plan.legacy _ :: rest, fired => runReminders deliverOk uid dateKey hhmm rest fired
  | Plan.item t x :: rest, fired =>
    if t = some hhmm then
      let k := mkKey dateKey hhmm x
      if k ∈ fired then runReminders deliverOk uid dateKey hhmm rest fired
      else if deliverOk then
        let r := runReminders deliverOk uid dateKey hhmm rest (k :: fired)
        ⟨Event.reminder uid hhmm x :: r.events, r.fired, r.ok⟩
      else ⟨[], fired, false⟩
    else runReminders deliverOk uid dateKey hhmm rest fired

/-- Result of processing one profile in a tick. -/
structure ProfileTickResult where
  events : List Event
  state : UserData
  ok : Bool

/-- One profile's processing inside a scheduler tick (lines 1121-1152), for
the local time `lt` in that profile's timezone:

* morning brief (line 1127): fires when the current minute equals the
  effective notification time and `setup_complete`;
  `send_daily_notification` catches every exception internally, so an
  unreachable recipient merely drops the event;
* per-item reminders (lines 1134-1144): see `runReminders`; an unreachable
  recipient raises out of the tick body;
* evening summary (lines 1146-1152): fires at `SUMMARY_TIME` when
  `setup_complete` and `last_summary_date` differs from today;
  `send_daily_summary` catches exceptions internally and persists
  `last_summary_date` only after a successful send (the scheduler's own
  line-1152 assignment mutates an in-memory copy that is never saved). -/
def tickProfile (unreachable : String → Bool) (lt : LocalTime) (uid : String)
    (u : UserData) : ProfileTickResult :=
  let briefEvents :=
    if lt.hhmm = effectiveNotifTime u ∧ u.setup_complete = true then
      if unreachable uid then [] else [Event.brief uid]
    else []
  let r := runReminders (!unreachable uid) uid lt.dateKey lt.hhmm
    (u.plans (todayName lt)) u.fired
  let u1 : UserData := { u with fired := r.fired }
  if r.ok then
    if lt.hhmm = SUMMARY_TIME ∧ u1.setup_complete = true ∧
        u1.last_summary_date ≠ some lt.dateKey then
      if unreachable uid then ⟨briefEvents ++ r.events, u1, true⟩
      else ⟨briefEvents ++ r.events ++ [Event.summary uid],
        { u1 with last_summary_date := some lt.dateKey }, true⟩
    else ⟨briefEvents ++ r.events, u1, true⟩
  else ⟨briefEvents ++ r.events, u1, false⟩

/-- One full scheduler tick over all profiles (the `for user_id, user_data in
users.items()` loop, lines 1121-1152).  `now` projects the current instant
into each profile's timezone (`get_user_now`).  When one profile's processing
raises (`ok = false`), the loop aborts: the remaining profiles are returned
unprocessed and the final `Bool` is `false` (the outer `except` at line 1156
logs and waits for the next interval, so the scheduler itself survives). -/
def tick (unreachable : String → Bool) (now : String → LocalTime) :
    List (String × UserData) → List Event × List (String × UserData) × Bool
  | [] => ([], [], true)
  | (uid, u) :: rest =>
    let r := tickProfile unreachable (now u.timezone) uid u
    if r.ok then
      let t := tick unreachable now rest
      (r.events ++ t.1, (uid, r.state) :: t.2.1, t.2.2)
    else (r.events, (uid, r.state) :: rest, false)

-- ========== Derived predicates and concrete instances ==========

/-- The spec's invariant on an active `ItogSession`: `currentIndex` within
`[0, len(planSnapshot)]` and `completedIndices ⊆ [0, len(planSnapshot))`. -/
def ItogInv (st : ItogState) : Prop :=
  st.current_index ≤ st.plans.length ∧ ∀ i ∈ st.completed, i < st.plans.length

/-- The spec's notion of a valid zero-padded `HH:MM` string: some hour at
most 23 and minute at most 59 rendered with `f"{h:02d}:{m:02d}"`.  Written
from the spec's words, for comparison with `handleTimeInput`. -/
def specValidHHMM (s : String) : Prop :=
  ∃ h m, h ≤ 23 ∧ m ≤ 59 ∧ s = timeString h m

/-- A profile with no data, in the default timezone. -/
def baseUser : UserData :=
  ⟨"Asia/Irkutsk", none, fun _ => [], false, none, none, []⟩

/-- A Monday local time at the given minute. -/
def mondayAt (hhmm : String) : LocalTime :=
  ⟨0, "2025-01-06", "06.01.2025", hhmm⟩

/-- Profile for the C1 counterexample: setup complete, no notification time. -/
def userNoTime : UserData := { baseUser with setup_complete := true }

/-- Untimed plan entries used in concrete itog scenarios. -/
def planA : Plan := Plan.item none "A"

/-- Second untimed plan entry. -/
def planB : Plan := Plan.item none "B"

/-- Profile whose live Monday plan holds two items. -/
def userTwoItems : UserData :=
  { baseUser with plans := fun d => if d = "Понедельник" then [planA, planB] else [] }

/-- Itog session for the C4 counterexample: its snapshot no longer matches
the live plan of `userLiveEdited` (one item was appended live after the
session started). -/
def staleSession : ItogState := ⟨"06.01.2025", "d", [planA], 1, [0]⟩

/-- Profile for the C4 counterexample: live plan for day `"d"` is
`[planA, planB]` while `staleSession` snapshotted only `[planA]`. -/
def userLiveEdited : UserData :=
  { baseUser with plans := fun d => if d = "d" then [planA, planB] else [] }

/-- Profile due a `10:00` reminder for item `"a"`, in timezone `"TZ1"`. -/
def userRemA : UserData :=
  { baseUser with timezone := "TZ1"
                  plans := fun d => if d = "Понедельник" then [Plan.item (some "10:00") "a"] else [] }

/-- Profile due a `10:00` reminder for item `"b"`, in timezone `"TZ1"`. -/
def userRemB : UserData :=
  { baseUser with timezone := "TZ1"
                  plans := fun d => if d = "Понедельник" then [Plan.item (some "10:00") "b"] else [] }

/-- Profile eligible for the evening summary. -/
def userSummary : UserData := { baseUser with setup_complete := true }

-- ========== Helper lemmas ==========

theorem mkKey_injText {d t x y : String} (h : mkKey d t x = mkKey d t y) : x = y := by
  have hd : (mkKey d t x).data = (mkKey d t y).data := congrArg String.data h
  simp only [mkKey, String.data_append] at hd
  have hx := List.append_cancel_left hd
  exact String.ext hx

theorem runReminders_ok (uid dateKey hhmm : String) (ps : List Plan)
    (fired : List String) :
    (runReminders true uid dateKey hhmm ps fired).ok = true := by
  induction ps generalizing fired with
  | nil => rfl
  | cons p rest ih =>
    cases p with
    | legacy s => simpa [runReminders] using ih fired
    | item t x =>
      simp only [runReminders]
      split_ifs <;> simp [ih]

theorem runReminders_events_shape (d : Bool) (uid dateKey hhmm : String)
    (ps : List Plan) (fired : List String) :
    ∀ e ∈ (runReminders d uid dateKey hhmm ps fired).events,
      ∃ t x, e = Event.reminder uid t x := by
  induction ps generalizing fired with
  | nil => simp [runReminders]
  | cons p rest ih =>
    cases p with
    | legacy s => simpa [runReminders] using ih fired
    | item t x =>
      simp only [runReminders]
      split_ifs with h1 h2 h3
      · exact ih fired
      · intro e he
        rcases List.mem_cons.1 he with rfl | he
        · exact ⟨hhmm, x, rfl⟩
        · exact ih _ e he
      · simp
      · exact ih fired

theorem runReminders_fired_mono (d : Bool) (uid dateKey hhmm : String)
    (ps : List Plan) (fired : List String) (k : String) (hk : k ∈ fired) :
    k ∈ (runReminders d uid dateKey hhmm ps fired).fired := by
  induction ps generalizing fired with
  | nil => simpa [runReminders] using hk
  | cons p rest ih =>
    cases p with
    | legacy s => simpa [runReminders] using ih fired hk
    | item t x =>
      simp only [runReminders]
      split_ifs with h1 h2 h3
      · exact ih fired hk
      · exact ih _ (List.mem_cons_of_mem _ hk)
      · simpa using hk
      · exact ih fired hk

theorem runReminders_nil (d : Bool) (uid dateKey hhmm : String)
    (fired : List String) :
    runReminders d uid dateKey hhmm [] fired = ⟨[], fired, true⟩ := rfl

theorem runReminders_cons_legacy (d : Bool) (uid dateKey hhmm s : String)
    (rest : List Plan) (fired : List String) :
    runReminders d uid dateKey hhmm (Plan.legacy s :: rest) fired
      = runReminders d uid dateKey hhmm rest fired := rfl

theorem runReminders_cons_other (d : Bool) (uid dateKey hhmm : String)
    (t : Option String) (x : String) (rest : List Plan) (fired : List String)
    (h : t ≠ some hhmm) :
    runReminders d uid dateKey hhmm (Plan.item t x :: rest) fired
      = runReminders d uid dateKey hhmm rest fired := by
  simp [runReminders, h]

theorem runReminders_cons_skip (d : Bool) (uid dateKey hhmm x : String)
    (rest : List Plan) (fired : List String)
    (h : mkKey dateKey hhmm x ∈ fired) :
    runReminders d uid dateKey hhmm (Plan.item (some hhmm) x :: rest) fired
      = runReminders d uid dateKey hhmm rest fired := by
  simp [runReminders, h]

theorem runReminders_cons_send (uid dateKey hhmm x : String)
    (rest : List Plan) (fired : List String)
    (h : mkKey dateKey hhmm x ∉ fired) :
    runReminders true uid dateKey hhmm (Plan.item (some hhmm) x :: rest) fired
      = ⟨Event.reminder uid hhmm x ::
          (runReminders true uid dateKey hhmm rest (mkKey dateKey hhmm x :: fired)).events,
        (runReminders true uid dateKey hhmm rest (mkKey dateKey hhmm x :: fired)).fired,
        (runReminders true uid dateKey hhmm rest (mkKey dateKey hhmm x :: fired)).ok⟩ := by
  simp [runReminders, h]

theorem runReminders_cons_fail (uid dateKey hhmm x : String)
    (rest : List Plan) (fired : List String)
    (h : mkKey dateKey hhmm x ∉ fired) :
    runReminders false uid dateKey hhmm (Plan.item (some hhmm) x :: rest) fired
      = ⟨[], fired, false⟩ := by
  simp [runReminders, h]

theorem runReminders_fired_mem (uid dateKey hhmm : String) (ps : List Plan)
    (fired : List String) (k : String) :
    k ∈ (runReminders true uid dateKey hhmm ps fired).fired
      ↔ k ∈ fired ∨ ∃ x, Plan.item (some hhmm) x ∈ ps ∧ k = mkKey dateKey hhmm x := by
  induction ps generalizing fired with
  | nil => simp [runReminders_nil]
  | cons p rest ih =>
    cases p with
    | legacy s =>
      rw [runReminders_cons_legacy, ih]
      simp
    | item t x' =>
      by_cases ht : t = some hhmm
      · subst ht
        by_cases hk' : mkKey dateKey hhmm x' ∈ fired
        · rw [runReminders_cons_skip _ _ _ _ _ _ _ hk', ih]
          constructor
          · rintro (hk | ⟨x, hx, rfl⟩)
            · exact Or.inl hk
            · exact Or.inr ⟨x, List.mem_cons_of_mem _ hx, rfl⟩
          · rintro (hk | ⟨x, hx, rfl⟩)
            · exact Or.inl hk
            · rcases List.mem_cons.1 hx with h | h
              · rcases Plan.item.inj h with ⟨-, rfl⟩
                exact Or.inl hk'
              · exact Or.inr ⟨x, h, rfl⟩
        · rw [runReminders_cons_send _ _ _ _ _ _ hk']
          show k ∈ (runReminders true uid dateKey hhmm rest
            (mkKey dateKey hhmm x' :: fired)).fired ↔ _
          rw [ih]
          constructor
          · rintro (hk | ⟨x, hx, rfl⟩)
            · rcases List.mem_cons.1 hk with rfl | hk
              · exact Or.inr ⟨x', List.mem_cons_self _ _, rfl⟩
              · exact Or.inl hk
            · exact Or.inr ⟨x, List.mem_cons_of_mem _ hx, rfl⟩
          · rintro (hk | ⟨x, hx, rfl⟩)
            · exact Or.inl (List.mem_cons_of_mem _ hk)
            · rcases List.mem_cons.1 hx with h | h
              · rcases Plan.item.inj h with ⟨-, rfl⟩
                exact Or.inl (List.mem_cons_self _ _)
              · exact Or.inr ⟨x, h, rfl⟩
      · rw [runReminders_cons_other _ _ _ _ _ _ _ _ ht, ih]
        constructor
        · rintro (hk | ⟨x, hx, rfl⟩)
          · exact Or.inl hk
          · exact Or.inr ⟨x, List.mem_cons_of_mem _ hx, rfl⟩
        · rintro (hk | ⟨x, hx, rfl⟩)
          · exact Or.inl hk
          · rcases List.mem_cons.1 hx with h | h
            · rcases Plan.item.inj h with ⟨h1, rfl⟩
              exact absurd h1.symm ht
            · exact Or.inr ⟨x, h, rfl⟩

theorem runReminders_mem_events (uid dateKey hhmm : String) (ps : List Plan)
    (fired : List String) (x : String) :
    Event.reminder uid hhmm x ∈ (runReminders true uid dateKey hhmm ps fired).events
      ↔ Plan.item (some hhmm) x ∈ ps ∧ mkKey dateKey hhmm x ∉ fired := by
  induction ps generalizing fired with
  | nil => simp [runReminders_nil]
  | cons p rest ih =>
    cases p with
    | legacy s =>
      rw [runReminders_cons_legacy, ih]
      simp
    | item t x' =>
      by_cases ht : t = some hhmm
      · subst ht
        by_cases hk' : mkKey dateKey hhmm x' ∈ fired
        · rw [runReminders_cons_skip _ _ _ _ _ _ _ hk', ih]
          constructor
          · rintro ⟨hx, hk⟩
            exact ⟨List.mem_cons_of_mem _ hx, hk⟩
          · rintro ⟨hx, hk⟩
            rcases List.mem_cons.1 hx with h | h
            · rcases Plan.item.inj h with ⟨-, rfl⟩
              exact absurd hk' hk
            · exact ⟨h, hk⟩
        · rw [runReminders_cons_send _ _ _ _ _ _ hk']
          show Event.reminder uid hhmm x ∈ Event.reminder uid hhmm x' ::
            (runReminders true uid dateKey hhmm rest
              (mkKey dateKey hhmm x' :: fired)).events ↔ _
          rw [List.mem_cons, ih]
          constructor
          · rintro (he | ⟨hx, hk⟩)
            · rcases Event.reminder.inj he with ⟨-, -, rfl⟩
              exact ⟨List.mem_cons_self _ _, hk'⟩
            · exact ⟨List.mem_cons_of_mem _ hx,
                fun hmem => hk (List.mem_cons_of_mem _ hmem)⟩
          · rintro ⟨hx, hk⟩
            by_cases hxx : x = x'
            · subst hxx
              exact Or.inl rfl
            · have hxr : Plan.item (some hhmm) x ∈ rest := by
                rcases List.mem_cons.1 hx with h | h
                · rcases Plan.item.inj h with ⟨-, h2⟩
                  exact absurd h2 hxx
                · exact h
              refine Or.inr ⟨hxr, fun hmem => ?_⟩
              rcases List.mem_cons.1 hmem with he | he
              · exact hxx (mkKey_injText he)
              · exact hk he
      · rw [runReminders_cons_other _ _ _ _ _ _ _ _ ht, ih]
        constructor
        · rintro ⟨hx, hk⟩
          exact ⟨List.mem_cons_of_mem _ hx, hk⟩
        · rintro ⟨hx, hk⟩
          rcases List.mem_cons.1 hx with h | h
          · rcases Plan.item.inj h with ⟨h1, rfl⟩
            exact absurd h1.symm ht
          · exact ⟨h, hk⟩

theorem runReminders_count (uid dateKey hhmm : String) (ps : List Plan)
    (fired : List String) (x : String) :
    (runReminders true uid dateKey hhmm ps fired).events.count (Event.reminder uid hhmm x)
      = if Plan.item (some hhmm) x ∈ ps ∧ mkKey dateKey hhmm x ∉ fired then 1 else 0 := by
  induction ps generalizing fired with
  | nil => simp [runReminders_nil]
  | cons p rest ih =>
    cases p with
    | legacy s =>
      rw [runReminders_cons_legacy, ih]
      simp
    | item t x' =>
      by_cases ht : t = some hhmm
      · subst ht
        by_cases hk' : mkKey dateKey hhmm x' ∈ fired
        · rw [runReminders_cons_skip _ _ _ _ _ _ _ hk', ih]
          by_cases hxx : x = x'
          · subst hxx
            simp [hk']
          · simp [hxx]
        · rw [runReminders_cons_send _ _ _ _ _ _ hk']
          show (Event.reminder uid hhmm x' ::
            (runReminders true uid dateKey hhmm rest
              (mkKey dateKey hhmm x' :: fired)).events).count (Event.reminder uid hhmm x) = _
          rw [List.count_cons, ih]
          by_cases hxx : x = x'
          · subst hxx
            simp [hk']
          · have hkne : mkKey dateKey hhmm x ≠ mkKey dateKey hhmm x' :=
              fun h => hxx (mkKey_injText h)
            simp [hxx, hkne, Ne.symm hxx]
      · rw [runReminders_cons_other _ _ _ _ _ _ _ _ ht, ih]
        have : Plan.item (some hhmm) x ≠ Plan.item t x' := by
          intro h
          rcases Plan.item.inj h with ⟨h1, -⟩
          exact ht h1.symm
        simp [this]

theorem runReminders_allFired (d : Bool) (uid dateKey hhmm : String)
    (ps : List Plan) (fired : List String)
    (h : ∀ x, Plan.item (some hhmm) x ∈ ps → mkKey dateKey hhmm x ∈ fired) :
    runReminders d uid dateKey hhmm ps fired = ⟨[], fired, true⟩ := by
  induction ps with
  | nil => exact runReminders_nil d uid dateKey hhmm fired
  | cons p rest ih =>
    cases p with
    | legacy s =>
      rw [runReminders_cons_legacy]
      exact ih (fun x hx => h x (List.mem_cons_of_mem _ hx))
    | item t x' =>
      by_cases ht : t = some hhmm
      · subst ht
        rw [runReminders_cons_skip _ _ _ _ _ _ _ (h x' (List.mem_cons_self _ _))]
        exact ih (fun x hx => h x (List.mem_cons_of_mem _ hx))
      · rw [runReminders_cons_other _ _ _ _ _ _ _ _ ht]
        exact ih (fun x hx => h x (List.mem_cons_of_mem _ hx))

theorem tickProfile_events (unr : String → Bool) (lt : LocalTime) (uid : String)
    (u : UserData) :
    (tickProfile unr lt uid u).events =
      (if lt.hhmm = effectiveNotifTime u ∧ u.setup_complete = true then
        if unr uid then [] else [Event.brief uid]
      else [])
      ++ (runReminders (!unr uid) uid lt.dateKey lt.hhmm
            (u.plans (todayName lt)) u.fired).events
      ++ (if (runReminders (!unr uid) uid lt.dateKey lt.hhmm
              (u.plans (todayName lt)) u.fired).ok = true then
            if lt.hhmm = SUMMARY_TIME ∧ u.setup_complete = true
                ∧ u.last_summary_date ≠ some lt.dateKey then
              if unr uid then [] else [Event.summary uid]
            else []
          else []) := by
  cases hu : unr uid <;>
    simp only [tickProfile, hu, Bool.not_false, Bool.not_true] <;>
    split_ifs <;> simp_all

theorem tickProfile_state_fired (unr : String → Bool) (lt : LocalTime)
    (uid : String) (u : UserData) :
    (tickProfile unr lt uid u).state.fired =
      (runReminders (!unr uid) uid lt.dateKey lt.hhmm
        (u.plans (todayName lt)) u.fired).fired := by
  cases hu : unr uid <;>
    simp only [tickProfile, hu, Bool.not_false, Bool.not_true] <;>
    split_ifs <;> rfl

theorem tickProfile_state_plans (unr : String → Bool) (lt : LocalTime)
    (uid : String) (u : UserData) :
    (tickProfile unr lt uid u).state.plans = u.plans := by
  cases hu : unr uid <;>
    simp only [tickProfile, hu, Bool.not_false, Bool.not_true] <;>
    split_ifs <;> rfl

theorem tickProfile_state_setup (unr : String → Bool) (lt : LocalTime)
    (uid : String) (u : UserData) :
    (tickProfile unr lt uid u).state.setup_complete = u.setup_complete := by
  cases hu : unr uid <;>
    simp only [tickProfile, hu, Bool.not_false, Bool.not_true] <;>
    split_ifs <;> rfl

theorem tickProfile_state_notif (unr : String → Bool) (lt : LocalTime)
    (uid : String) (u : UserData) :
    (tickProfile unr lt uid u).state.notification_time = u.notification_time := by
  cases hu : unr uid <;>
    simp only [tickProfile, hu, Bool.not_false, Bool.not_true] <;>
    split_ifs <;> rfl

theorem tickProfile_state_summary_date (unr : String → Bool) (lt : LocalTime)
    (uid : String) (u : UserData) :
    (tickProfile unr lt uid u).state.last_summary_date =
      (if (runReminders (!unr uid) uid lt.dateKey lt.hhmm
              (u.plans (todayName lt)) u.fired).ok = true then
        if lt.hhmm = SUMMARY_TIME ∧ u.setup_complete = true
            ∧ u.last_summary_date ≠ some lt.dateKey then
          if unr uid then u.last_summary_date else some lt.dateKey
        else u.last_summary_date
      else u.last_summary_date) := by
  cases hu : unr uid <;>
    simp only [tickProfile, hu, Bool.not_false, Bool.not_true] <;>
    split_ifs <;> simp_all

theorem brief_mem_iff (lt : LocalTime) (uid : String) (u : UserData) :
    Event.brief uid ∈ (tickProfile (fun _ => false) lt uid u).events
      ↔ (lt.hhmm = effectiveNotifTime u ∧ u.setup_complete = true) := by
  have hshape := runReminders_events_shape true uid lt.dateKey lt.hhmm
    (u.plans (todayName lt)) u.fired
  rw [tickProfile_events]
  constructor
  · intro h
    rcases List.mem_append.1 h with h1 | h2
    · rcases List.mem_append.1 h1 with hb | hr
      · by_cases hc : lt.hhmm = effectiveNotifTime u ∧ u.setup_complete = true
        · exact hc
        · simp [hc] at hb
      · rcases hshape _ hr with ⟨t, x, hx⟩
        exact Event.noConfusion hx
    · split_ifs at h2 <;> simp_all
  · intro hc
    refine List.mem_append.2 (Or.inl (List.mem_append.2 (Or.inl ?_)))
    simp [hc]

theorem summary_mem_iff (lt : LocalTime) (uid : String) (u : UserData) :
    Event.summary uid ∈ (tickProfile (fun _ => false) lt uid u).events
      ↔ (lt.hhmm = SUMMARY_TIME ∧ u.setup_complete = true
          ∧ u.last_summary_date ≠ some lt.dateKey) := by
  have hshape := runReminders_events_shape true uid lt.dateKey lt.hhmm
    (u.plans (todayName lt)) u.fired
  have hok := runReminders_ok uid lt.dateKey lt.hhmm (u.plans (todayName lt)) u.fired
  rw [tickProfile_events]
  constructor
  · intro h
    rcases List.mem_append.1 h with h1 | h2
    · rcases List.mem_append.1 h1 with hb | hr
      · split_ifs at hb <;> simp_all
      · rcases hshape _ hr with ⟨t, x, hx⟩
        exact Event.noConfusion hx
    · by_cases hc : lt.hhmm = SUMMARY_TIME ∧ u.setup_complete = true
          ∧ u.last_summary_date ≠ some lt.dateKey
      · exact hc
      · simp [hc] at h2
  · intro hc
    refine List.mem_append.2 (Or.inr ?_)
    have hok2 := hok
    rw [hc.1] at hok2
    simp [hc, hok2]

theorem tick_reminder_mem_iff (lt : LocalTime) (uid : String) (u : UserData)
    (x : String) :
    Event.reminder uid lt.hhmm x ∈ (tickProfile (fun _ => false) lt uid u).events
      ↔ (Plan.item (some lt.hhmm) x ∈ u.plans (todayName lt)
          ∧ mkKey lt.dateKey lt.hhmm x ∉ u.fired) := by
  rw [tickProfile_events]
  rw [show (!(fun _ : String => false) uid) = true from rfl]
  constructor
  · intro h
    rcases List.mem_append.1 h with h1 | h2
    · rcases List.mem_append.1 h1 with hb | hr
      · split_ifs at hb <;> simp_all
      · exact (runReminders_mem_events uid lt.dateKey lt.hhmm _ _ x).1 hr
    · split_ifs at h2 <;> simp_all
  · intro hc
    refine List.mem_append.2 (Or.inl (List.mem_append.2 (Or.inr ?_)))
    exact (runReminders_mem_events uid lt.dateKey lt.hhmm _ _ x).2 hc

/-- C1 (counterexample): a profile whose `notificationTime` is absent and
whose setup is complete receives the morning brief on the tick whose local
minute is `09:00` — the scheduler substitutes the default `'09:00'`
(`notification_time = user_data.get('notification_time') or '09:00'`,
line 1122), so the brief does fire with `notificationTime` absent,
contradicting the claim. -/
theorem morning_brief_fires_without_notification_time :
    userNoTime.notification_time = none ∧ userNoTime.setup_complete = true ∧
    Event.brief "7" ∈ (tickProfile (fun _ => false) (mondayAt "09:00") "7" userNoTime).events := by
  refine ⟨rfl, rfl, ?_⟩
  rw [brief_mem_iff]
  exact ⟨rfl, rfl⟩

/-- C1 (amended): on a tick, with delivery succeeding, the morning brief is
sent to a profile exactly when `setupComplete` holds and the current minute
in the profile's timezone equals the profile's `notificationTime` **or, when
`notificationTime` is absent (or empty), the default `"09:00"`**
(`effectiveNotifTime`).  In particular, with `notificationTime` absent, the
brief still fires at 09:00 local time. -/
theorem morning_brief_characterization (lt : LocalTime) (uid : String)
    (u : UserData) :
    Event.brief uid ∈ (tickProfile (fun _ => false) lt uid u).events
      ↔ (u.setup_complete = true ∧ lt.hhmm = effectiveNotifTime u) := by
  rw [brief_mem_iff]
  exact and_comm

theorem tick_reminder_count (lt : LocalTime) (uid : String) (u : UserData)
    (x : String) :
    (tickProfile (fun _ => false) lt uid u).events.count (Event.reminder uid lt.hhmm x)
      = (runReminders true uid lt.dateKey lt.hhmm
          (u.plans (todayName lt)) u.fired).events.count (Event.reminder uid lt.hhmm x) := by
  rw [tickProfile_events]
  rw [show (!(fun _ : String => false) uid) = true from rfl]
  rw [List.count_append, List.count_append]
  have h1 : (if lt.hhmm = effectiveNotifTime u ∧ u.setup_complete = true then
      if (fun _ : String => false) uid then [] else [Event.brief uid]
    else []).count (Event.reminder uid lt.hhmm x) = 0 := by
    split_ifs <;> simp
  have h2 : (if (runReminders true uid lt.dateKey lt.hhmm
        (u.plans (todayName lt)) u.fired).ok = true then
      if lt.hhmm = SUMMARY_TIME ∧ u.setup_complete = true
          ∧ u.last_summary_date ≠ some lt.dateKey then
        if (fun _ : String => false) uid then [] else [Event.summary uid]
      else []
    else []).count (Event.reminder uid lt.hhmm x) = 0 := by
    split_ifs <;> simp
  rw [h1, h2]
  omega

/-- C2: with delivery succeeding, the per-item reminder path of a scheduler
tick is deduplicated by the key `sent_<date>_<time>_<text>`: a reminder for
item text `x` at the current minute is sent exactly when its key is absent
from the profile's fired set; a profile whose fired set already contains the
key of a matching item is not sent that item's reminder again; the key is in
the resulting fired set whenever the reminder was sent; and running the tick
a second time within the same minute on the resulting profile sends no
per-item reminder at all. -/
theorem reminder_dedup_idempotent (lt : LocalTime) (uid : String) (u : UserData) :
    (∀ x, mkKey lt.dateKey lt.hhmm x ∈ u.fired →
        Event.reminder uid lt.hhmm x ∉ (tickProfile (fun _ => false) lt uid u).events)
    ∧ (∀ x, Event.reminder uid lt.hhmm x ∈ (tickProfile (fun _ => false) lt uid u).events
        ↔ (Plan.item (some lt.hhmm) x ∈ u.plans (todayName lt)
            ∧ mkKey lt.dateKey lt.hhmm x ∉ u.fired))
    ∧ (∀ x, Event.reminder uid lt.hhmm x ∈ (tickProfile (fun _ => false) lt uid u).events →
        mkKey lt.dateKey lt.hhmm x ∈ (tickProfile (fun _ => false) lt uid u).state.fired)
    ∧ (∀ x, Event.reminder uid lt.hhmm x ∉
        (tickProfile (fun _ => false) lt uid
          ((tickProfile (fun _ => false) lt uid u).state)).events) := by
  refine ⟨?_, ?_, ?_, ?_⟩
  · intro x hk hmem
    exact ((tick_reminder_mem_iff lt uid u x).1 hmem).2 hk
  · exact tick_reminder_mem_iff lt uid u
  · intro x hmem
    rcases (tick_reminder_mem_iff lt uid u x).1 hmem with ⟨hx, -⟩
    rw [tickProfile_state_fired]
    rw [show (!(fun _ : String => false) uid) = true from rfl]
    exact (runReminders_fired_mem uid lt.dateKey lt.hhmm _ _ _).2
      (Or.inr ⟨x, hx, rfl⟩)
  · intro x hmem
    rcases (tick_reminder_mem_iff lt uid
        ((tickProfile (fun _ => false) lt uid u).state) x).1 hmem with ⟨hx, hk⟩
    rw [tickProfile_state_plans] at hx
    apply hk
    rw [tickProfile_state_fired]
    rw [show (!(fun _ : String => false) uid) = true from rfl]
    exact (runReminders_fired_mem uid lt.dateKey lt.hhmm _ _ _).2
      (Or.inr ⟨x, hx, rfl⟩)

/-- C2 (witness): concrete instance of the dedup guarantee — a profile whose
fired set already holds the key of its single due item receives no reminder
for it on a tick. -/
theorem reminder_dedup_idempotent_witness :
    Event.reminder "7" "10:00" "a" ∉
      (tickProfile (fun _ => false) (mondayAt "10:00") "7"
        { userRemA with fired := [mkKey "2025-01-06" "10:00" "a"] }).events := by
  have h := (reminder_dedup_idempotent (mondayAt "10:00") "7"
    { userRemA with fired := [mkKey "2025-01-06" "10:00" "a"] }).1 "a"
  exact h (by decide)

/-- C10: when today's plan contains two (or more) occurrences of the same
`(time, text)` item whose time equals the current minute and whose dedup key
is not yet fired, the tick sends exactly one reminder for that pair, records
the key, and a tick on the resulting profile within the same minute sends
none. -/
theorem duplicate_items_single_reminder (lt : LocalTime) (uid : String)
    (u : UserData) (x : String)
    (hdup : 2 ≤ (u.plans (todayName lt)).count (Plan.item (some lt.hhmm) x))
    (hnew : mkKey lt.dateKey lt.hhmm x ∉ u.fired) :
    ((tickProfile (fun _ => false) lt uid u).events.count
        (Event.reminder uid lt.hhmm x) = 1)
    ∧ mkKey lt.dateKey lt.hhmm x ∈ (tickProfile (fun _ => false) lt uid u).state.fired
    ∧ ((tickProfile (fun _ => false) lt uid
        ((tickProfile (fun _ => false) lt uid u).state)).events.count
          (Event.reminder uid lt.hhmm x) = 0) := by
  have hmem : Plan.item (some lt.hhmm) x ∈ u.plans (todayName lt) := by
    by_contra hno
    rw [List.count_eq_zero_of_not_mem hno] at hdup
    omega
  have hkey : mkKey lt.dateKey lt.hhmm x ∈
      (tickProfile (fun _ => false) lt uid u).state.fired := by
    rw [tickProfile_state_fired]
    rw [show (!(fun _ : String => false) uid) = true from rfl]
    exact (runReminders_fired_mem uid lt.dateKey lt.hhmm _ _ _).2
      (Or.inr ⟨x, hmem, rfl⟩)
  refine ⟨?_, hkey, ?_⟩
  · rw [tick_reminder_count, runReminders_count, if_pos ⟨hmem, hnew⟩]
  · rw [tick_reminder_count, runReminders_count, if_neg]
    rintro ⟨-, hk2⟩
    exact hk2 hkey

/-- C10 (witness): a concrete profile whose Monday plan lists the same timed
item twice receives exactly one reminder for it at that minute. -/
theorem duplicate_items_single_reminder_witness :
    ((tickProfile (fun _ => false) (mondayAt "10:00") "7"
        { userRemA with plans := fun d =>
            if d = "Понедельник" then
              [Plan.item (some "10:00") "a", Plan.item (some "10:00") "a"]
            else [] }).events.count (Event.reminder "7" "10:00" "a") = 1) := by
  exact (duplicate_items_single_reminder (mondayAt "10:00") "7" _ "a"
    (by decide) (by decide)).1

/-- C7: with delivery succeeding, the evening summary is sent on a tick
exactly when `setupComplete` holds, the current minute in the profile's
timezone equals `SUMMARY_TIME`, and `lastSummaryDate` differs from today's
local date; a sent summary sets `lastSummaryDate` to today, so a tick on the
resulting profile on the same local date sends no further summary. -/
theorem evening_summary_once_per_day (lt : LocalTime) (uid : String)
    (u : UserData) :
    (Event.summary uid ∈ (tickProfile (fun _ => false) lt uid u).events
      ↔ (u.setup_complete = true ∧ lt.hhmm = SUMMARY_TIME
          ∧ u.last_summary_date ≠ some lt.dateKey))
    ∧ (Event.summary uid ∈ (tickProfile (fun _ => false) lt uid u).events →
        (tickProfile (fun _ => false) lt uid u).state.last_summary_date
          = some lt.dateKey)
    ∧ (∀ lt' : LocalTime, lt'.dateKey = lt.dateKey →
        Event.summary uid ∈ (tickProfile (fun _ => false) lt uid u).events →
        Event.summary uid ∉ (tickProfile (fun _ => false) lt' uid
          ((tickProfile (fun _ => false) lt uid u).state)).events) := by
  have hset : Event.summary uid ∈ (tickProfile (fun _ => false) lt uid u).events →
      (tickProfile (fun _ => false) lt uid u).state.last_summary_date
        = some lt.dateKey := by
    intro hmem
    have hc := (summary_mem_iff lt uid u).1 hmem
    rw [tickProfile_state_summary_date]
    rw [show (!(fun _ : String => false) uid) = true from rfl]
    rw [if_pos (runReminders_ok uid lt.dateKey lt.hhmm
      (u.plans (todayName lt)) u.fired), if_pos hc]
    simp
  refine ⟨?_, hset, ?_⟩
  · rw [summary_mem_iff]
    constructor
    · rintro ⟨h1, h2, h3⟩
      exact ⟨h2, h1, h3⟩
    · rintro ⟨h2, h1, h3⟩
      exact ⟨h1, h2, h3⟩
  · intro lt' hdk hmem hmem2
    rcases (summary_mem_iff lt' uid _).1 hmem2 with ⟨-, -, hne⟩
    exact hne (by rw [hset hmem, hdk])

/-- C7 (witness): a set-up profile with no summary yet today is sent the
summary at `23:59`, and its `lastSummaryDate` becomes today's date. -/
theorem evening_summary_once_per_day_witness :
    (tickProfile (fun _ => false) (mondayAt "23:59") "7" userSummary).state.last_summary_date
      = some "2025-01-06" :=
  (evening_summary_once_per_day (mondayAt "23:59") "7" userSummary).2.1
    ((summary_mem_iff (mondayAt "23:59") "7" userSummary).2 ⟨rfl, rfl, by decide⟩)

theorem mem_pySetAdd (l : List Nat) (n i : Nat) :
    i ∈ pySetAdd l n ↔ i ∈ l ∨ i = n := by
  unfold pySetAdd
  split_ifs with h
  · constructor
    · exact Or.inl
    · rintro (hi | rfl)
      · exact hi
      · exact h
  · simp [List.mem_append]

theorem handleItog_preserves_inv (u : UserData) (a : String)
    (hu : ∀ st, u.itog_state = some st → ItogInv st) :
    ∀ st, (handleItogResponse u a).1.itog_state = some st → ItogInv st := by
  intro st hst
  cases h0 : u.itog_state with
  | none =>
    simp only [handleItogResponse, h0] at hst
    exact Option.noConfusion hst
  | some st0 =>
    have hinv := hu st0 h0
    simp only [handleItogResponse, h0] at hst
    split_ifs at hst with h1 h2 h3 h4
    all_goals simp_all
    · -- continue branch, "да": the current index is recorded completed
      rcases hst with rfl
      refine ⟨?_, ?_⟩
      · show st0.current_index + 1 ≤ st0.plans.length
        omega
      · show ∀ i ∈ pySetAdd st0.completed st0.current_index,
          i < st0.plans.length
        intro i hi
        rcases (mem_pySetAdd st0.completed st0.current_index i).1 hi with hi' | rfl
        · exact hinv.2 i hi'
        · omega
    · -- continue branch, negative answer
      rcases hst with rfl
      refine ⟨?_, ?_⟩
      · show st0.current_index + 1 ≤ st0.plans.length
        omega
      · show ∀ i ∈ st0.completed, i < st0.plans.length
        exact hinv.2

theorem runAnswers_preserves_inv (answers : List String) :
    ∀ u : UserData, (∀ st, u.itog_state = some st → ItogInv st) →
      ∀ st, (runAnswers u answers).itog_state = some st → ItogInv st := by
  induction answers with
  | nil =>
    intro u hu
    simpa [runAnswers] using hu
  | cons a as ih =>
    intro u hu
    have hstep : runAnswers u (a :: as) = runAnswers (handleItogResponse u a).1 as := by
      simp [runAnswers]
    rw [hstep]
    exact ih _ (handleItog_preserves_inv u a hu)

/-- C8: every state reachable by feeding answers to `handle_itog_response`
from the session created by `/itog` (which starts at `currentIndex = 0` with
no completed indices) satisfies the `ItogSession` invariants: `currentIndex`
stays within `[0, len(planSnapshot)]` (the handler clears the session when
the index reaches the length) and every completed index lies in
`[0, len(planSnapshot))`. -/
theorem itog_invariant_reachable (u : UserData) (lt : LocalTime)
    (answers : List String) (st : ItogState)
    (h0 : u.itog_state = none)
    (hst : (runAnswers ((startItog u lt).1) answers).itog_state = some st) :
    ItogInv st := by
  have hstart : ∀ st', ((startItog u lt).1).itog_state = some st' → ItogInv st' := by
    intro st' h'
    simp only [startItog] at h'
    split_ifs at h' with he
    · exact Option.noConfusion (h0.symm.trans h')
    · rcases Option.some.inj h' with rfl
      exact ⟨Nat.zero_le _, by simp⟩
  exact runAnswers_preserves_inv answers _ hstart st hst

/-- C8 (witness): after `/itog` on a two-item plan and one "Да" answer, the
live session is at index 1 with completed set `{0}`, and satisfies the
invariant. -/
theorem itog_invariant_reachable_witness :
    ItogInv ⟨"06.01.2025", "Понедельник", [planA, planB], 1, [0]⟩ :=
  itog_invariant_reachable userTwoItems (mondayAt "10:00") ["Да"] _ rfl (by decide)

/-- C9: starting `/itog` when today's plan is empty is rejected before any
session is created: the profile's `itogState` is untouched and the user is
returned to the main menu; moreover any session `start_itog` installs has a
non-empty snapshot. -/
theorem start_itog_empty_rejected (u : UserData) (lt : LocalTime) :
    (u.plans (todayName lt) = [] →
      ((startItog u lt).1.itog_state = u.itog_state
        ∧ (startItog u lt).2 = ConvState.mainMenu))
    ∧ (∀ st, (startItog u lt).1.itog_state = some st →
        u.itog_state = some st ∨ st.plans ≠ []) := by
  constructor
  · intro he
    simp only [startItog]
    rw [if_pos he]
    exact ⟨rfl, rfl⟩
  · intro st hst
    simp only [startItog] at hst
    split_ifs at hst with he
    · exact Or.inl hst
    · right
      rcases Option.some.inj hst with rfl
      exact he

/-- C9 (witness): a profile with an empty Monday plan keeps its `itogState`
and is sent back to the main menu by `/itog`. -/
theorem start_itog_empty_rejected_witness :
    (startItog baseUser (mondayAt "21:00")).1.itog_state = baseUser.itog_state
      ∧ (startItog baseUser (mondayAt "21:00")).2 = ConvState.mainMenu :=
  (start_itog_empty_rejected baseUser (mondayAt "21:00")).1 (by decide)

/-- C4 (counterexample): when the live `plans[dayName]` was edited after the
snapshot was taken (here an item `planB` was appended live), applying itog
results does **not** equal the live list with the completed snapshot
positions removed: the code overwrites the day with the snapshot filtered by
position (`remaining = [plan for idx, plan in enumerate(snapshot) ...]`,
line 436), discarding the live edit. -/
theorem apply_itog_live_list_counterexample :
    (applyItogResultsToPlans userLiveEdited staleSession).plans "d" = []
    ∧ removeCompleted (userLiveEdited.plans "d") staleSession.completed = [planB]
    ∧ (applyItogResultsToPlans userLiveEdited staleSession).plans "d"
        ≠ removeCompleted (userLiveEdited.plans "d") staleSession.completed := by
  refine ⟨?_, ?_, ?_⟩ <;> decide

/-- C4 (amended): applying itog results sets the live `plans[dayName]` to
the **snapshot** with exactly the completed positions removed (items are
identified by snapshot position, so identical-text items are distinguished);
other days are untouched; with no completed index the profile is unchanged;
and the result coincides with "live list minus completed positions" exactly
when the live list still equals the snapshot. -/
theorem apply_itog_removes_snapshot_positions (u : UserData) (st : ItogState) :
    (st.completed = [] → applyItogResultsToPlans u st = u)
    ∧ (st.day_name ≠ "" → st.plans ≠ [] → st.completed ≠ [] →
        ((applyItogResultsToPlans u st).plans st.day_name
            = removeCompleted st.plans st.completed
          ∧ (∀ d, d ≠ st.day_name → (applyItogResultsToPlans u st).plans d = u.plans d)
          ∧ (u.plans st.day_name = st.plans →
              (applyItogResultsToPlans u st).plans st.day_name
                = removeCompleted (u.plans st.day_name) st.completed))) := by
  constructor
  · intro hc
    simp [applyItogResultsToPlans, hc]
  · intro h1 h2 h3
    have hcond : ¬(st.day_name = "" ∨ st.plans = [] ∨ st.completed = []) := by
      rintro (h | h | h) <;> [exact h1 h; exact h2 h; exact h3 h]
    refine ⟨?_, ?_, ?_⟩
    · simp [applyItogResultsToPlans, hcond, updatePlans]
    · intro d hd
      simp [applyItogResultsToPlans, hcond, updatePlans, hd]
    · intro hlive
      rw [hlive]
      simp [applyItogResultsToPlans, hcond, updatePlans]

/-- C4 (witness): with the live list still equal to the snapshot
`[planA, planB]` and completed set `{0}`, applying results leaves exactly
`[planB]` — position 0 is removed, position 1 kept. -/
theorem apply_itog_removes_snapshot_positions_witness :
    (applyItogResultsToPlans userTwoItems
        ⟨"06.01.2025", "Понедельник", [planA, planB], 2, [0]⟩).plans "Понедельник"
      = removeCompleted [planA, planB] [0] :=
  ((apply_itog_removes_snapshot_positions userTwoItems
      ⟨"06.01.2025", "Понедельник", [planA, planB], 2, [0]⟩).2
    (by decide) (by decide) (by decide)).1

theorem tickProfile_ok_iff (unr : String → Bool) (lt : LocalTime) (uid : String)
    (u : UserData) :
    (tickProfile unr lt uid u).ok =
      (runReminders (!unr uid) uid lt.dateKey lt.hhmm
        (u.plans (todayName lt)) u.fired).ok := by
  cases hu : unr uid <;>
    simp only [tickProfile, hu, Bool.not_false, Bool.not_true] <;>
    split_ifs <;> simp_all

/-- C3 (counterexample): with profile `"1"` unreachable and due a `10:00`
reminder, a tick over `[("1", userRemA), ("2", userRemB)]` at `10:00` aborts:
profile `"2"`'s due reminder is not sent in that tick (while with delivery
working both reminders are sent), because the reminder send at line 1138 has
no per-profile `try`/`except` and the exception escapes to the loop-level
handler at line 1156. -/
theorem reminder_failure_aborts_tick :
    (Event.reminder "2" "10:00" "b" ∉
      (tick (fun uid => uid == "1") (fun _ => mondayAt "10:00")
        [("1", userRemA), ("2", userRemB)]).1)
    ∧ (tick (fun uid => uid == "1") (fun _ => mondayAt "10:00")
        [("1", userRemA), ("2", userRemB)]).2.2 = false
    ∧ (tick (fun _ => false) (fun _ => mondayAt "10:00")
        [("1", userRemA), ("2", userRemB)]).1
      = [Event.reminder "1" "10:00" "a", Event.reminder "2" "10:00" "b"] := by
  refine ⟨?_, ?_, ?_⟩ <;> decide

/-- C3 (amended): delivery failures on the morning-brief and evening-summary
paths are caught inside `send_daily_notification` / `send_daily_summary` and
never abort the tick; only the unguarded per-item reminder send can.
Hence (i) a reachable profile never aborts the tick, (ii) an unreachable
profile whose due reminders are all already deduplicated never aborts the
tick even when its brief or summary delivery fails, and (iii) when every
profile's processing completes, the tick processes every profile: its events
are the concatenation of the per-profile events and every profile's state is
updated.  (The counterexample shows the remaining amendment: a failing
reminder send does abort the remaining profiles for that tick.) -/
theorem tick_failure_isolation (unr : String → Bool) (now : String → LocalTime)
    (profiles : List (String × UserData)) :
    (∀ uid u, unr uid = false →
        (tickProfile unr (now u.timezone) uid u).ok = true)
    ∧ (∀ uid u,
        (∀ x, Plan.item (some (now u.timezone).hhmm) x
            ∈ u.plans (todayName (now u.timezone)) →
          mkKey (now u.timezone).dateKey (now u.timezone).hhmm x ∈ u.fired) →
        (tickProfile unr (now u.timezone) uid u).ok = true)
    ∧ ((∀ p ∈ profiles, (tickProfile unr (now p.2.timezone) p.1 p.2).ok = true) →
        tick unr now profiles
          = (profiles.flatMap
              (fun p => (tickProfile unr (now p.2.timezone) p.1 p.2).events),
             profiles.map
              (fun p => (p.1, (tickProfile unr (now p.2.timezone) p.1 p.2).state)),
             true)) := by
  refine ⟨?_, ?_, ?_⟩
  · intro uid u hunr
    rw [tickProfile_ok_iff, hunr]
    exact runReminders_ok uid _ _ _ _
  · intro uid u hall
    rw [tickProfile_ok_iff,
      runReminders_allFired (!unr uid) uid _ _ _ _ hall]
  · induction profiles with
    | nil => intro _; rfl
    | cons p rest ih =>
      intro h
      obtain ⟨uid, u⟩ := p
      have hok := h (uid, u) (List.mem_cons_self _ _)
      have hrest := ih (fun q hq => h q (List.mem_cons_of_mem _ hq))
      simp only [tick, hok, if_true, hrest, List.flatMap_cons, List.map_cons]

/-- C3 (witness): with delivery working, a one-profile tick is exactly the
per-profile processing. -/
theorem tick_failure_isolation_witness :
    tick (fun _ => false) (fun _ => mondayAt "10:00") [("1", userRemA)]
      = ([("1", userRemA)].flatMap
          (fun p => (tickProfile (fun _ => false) (mondayAt "10:00") p.1 p.2).events),
         [("1", userRemA)].map
          (fun p => (p.1, (tickProfile (fun _ => false) (mondayAt "10:00") p.1 p.2).state)),
         true) :=
  (tick_failure_isolation (fun _ => false) (fun _ => mondayAt "10:00")
    [("1", userRemA)]).2.2 (by decide)

/-- C6 (counterexample): the input `"9:5"` is not a zero-padded `HH:MM`
string, yet `handle_time_input` accepts it (Python `int` parses each colon
part) and stores `"09:05"` — so the validation does not reject all non-HH:MM
inputs. -/
theorem time_input_accepts_unpadded :
    handleTimeInput "9:5" = some "09:05" ∧ ¬ specValidHHMM "9:5" := by
  constructor
  · decide
  · rintro ⟨h, m, -, -, hs⟩
    have hlen : ("9:5" : String).data.length = 5 := by
      rw [hs]
      simp [timeString, pad2]
    exact absurd hlen (by decide)

set_option maxHeartbeats 2000000 in
/-- C6 (amended): time validation accepts every valid zero-padded `HH:MM`
string, round-tripping it to itself unchanged; every accepted input is
stored as a valid zero-padded `HH:MM` string (the value's zero-padded
rendering).  But acceptance is wider than the `HH:MM` format: any string
whose two colon-parts parse as Python integers in range is accepted (e.g.
`"9:5"`), normalized on storage. -/
theorem time_input_roundtrip_amended :
    (∀ h m, h ≤ 23 → m ≤ 59 →
      handleTimeInput (timeString h m) = some (timeString h m))
    ∧ (∀ s t : String, handleTimeInput s = some t → specValidHHMM t) := by
  constructor
  · intro h m hh hm
    have hd : ∀ h' < 24, ∀ m' < 60,
        handleTimeInput (timeString h' m') = some (timeString h' m') := by decide
    exact hd h (by omega) m (by omega)
  · intro s t ht
    unfold handleTimeInput at ht
    rcases hsp : (splitOnCharCore ':' (stripCore s.data)).map (fun l => pyIntCore l)
      with - | ⟨o1, rest⟩
    · rw [hsp] at ht
      exact Option.noConfusion ht
    · rw [hsp] at ht
      rcases o1 with - | h
      · exact Option.noConfusion ht
      · rcases rest with - | ⟨o2, rest2⟩
        · exact Option.noConfusion ht
        · rcases o2 with - | m
          · rcases rest2 with - | ⟨o3, rest3⟩ <;> exact Option.noConfusion ht
          · rcases rest2 with - | ⟨o3, rest3⟩
            · dsimp only at ht
              split_ifs at ht with hc
              rcases Option.some.inj ht with rfl
              exact ⟨h.toNat, m.toNat,
                Int.toNat_le.2 hc.2.1, Int.toNat_le.2 hc.2.2.2, rfl⟩
            · exact Option.noConfusion ht

/-- C6 (witness): the valid input `"09:30"` is accepted and stored
unchanged. -/
theorem time_input_roundtrip_amended_witness :
    handleTimeInput (timeString 9 30) = some (timeString 9 30) :=
  time_input_roundtrip_amended.1 9 30 (by decide) (by decide)

theorem dropWhile_cons_false {p : Char → Bool} {x : Char} {l : List Char}
    (h : p x = false) : (x :: l).dropWhile p = x :: l := by
  simp [List.dropWhile_cons, h]

theorem dropWhile_eq_self_of_forall {p : Char → Bool} {l : List Char}
    (h : ∀ x ∈ l, p x = false) : l.dropWhile p = l := by
  induction l with
  | nil => rfl
  | cons x t ih =>
    rw [List.dropWhile_cons, if_neg (by simp [h x (List.mem_cons_self _ _)])]

theorem dropWhile_self_head {p : Char → Bool} {l : List Char}
    (h : l.dropWhile p = l) (h0 : l ≠ []) :
    ∃ x t, l = x :: t ∧ p x = false := by
  cases l with
  | nil => exact absurd rfl h0
  | cons x t =>
    rw [List.dropWhile_cons] at h
    by_cases hp : p x = true
    · rw [if_pos hp] at h
      have hlen := (List.dropWhile_suffix (l := t) p).length_le
      rw [h] at hlen
      simp at hlen
    · exact ⟨x, t, rfl, by simpa using hp⟩

theorem dropWhile_append_self {p : Char → Bool} {l : List Char} (r : List Char)
    (h : l.dropWhile p = l) (h0 : l ≠ []) :
    (l ++ r).dropWhile p = l ++ r := by
  rcases dropWhile_self_head h h0 with ⟨x, t, rfl, hx⟩
  rw [List.cons_append]
  exact dropWhile_cons_false hx

theorem takeWhile_append_stop {p : Char → Bool} (t r : List Char) (y : Char)
    (ht : ∀ x ∈ t, p x = true) (hy : p y = false) :
    (t ++ y :: r).takeWhile p = t := by
  induction t with
  | nil => simp [List.takeWhile_cons, hy]
  | cons x t' ih =>
    rw [List.cons_append, List.takeWhile_cons,
      if_pos (ht x (List.mem_cons_self _ _)),
      ih (fun z hz => ht z (List.mem_cons_of_mem _ hz))]

theorem dropWhile_append_stop {p : Char → Bool} (t r : List Char) (y : Char)
    (ht : ∀ x ∈ t, p x = true) (hy : p y = false) :
    (t ++ y :: r).dropWhile p = y :: r := by
  induction t with
  | nil => simp [List.dropWhile_cons, hy]
  | cons x t' ih =>
    rw [List.cons_append, List.dropWhile_cons,
      if_pos (ht x (List.mem_cons_self _ _)),
      ih (fun z hz => ht z (List.mem_cons_of_mem _ hz))]

theorem splitOn_append_sep (sep : Char) (xs ys : List Char) (h : sep ∉ xs) :
    splitOnCharCore sep (xs ++ sep :: ys) = xs :: splitOnCharCore sep ys := by
  induction xs with
  | nil =>
    rw [List.nil_append]
    rw [splitOnCharCore, if_pos rfl]
  | cons x t ih =>
    have hx : ¬x = sep := fun hx => h (hx ▸ List.mem_cons_self _ _)
    rw [List.cons_append, splitOnCharCore, if_neg hx,
      ih (fun hm => h (List.mem_cons_of_mem _ hm))]

theorem splitOn_no_sep (sep : Char) (xs : List Char) (h : sep ∉ xs) :
    splitOnCharCore sep xs = [xs] := by
  induction xs with
  | nil => rfl
  | cons x t ih =>
    have hx : ¬x = sep := fun hx => h (hx ▸ List.mem_cons_self _ _)
    rw [splitOnCharCore, if_neg hx, ih (fun hm => h (List.mem_cons_of_mem _ hm))]

theorem stripCore_eq_self_of {l : List Char}
    (h1 : l.dropWhile pyIsSpace = l)
    (h2 : l.reverse.dropWhile pyIsSpace = l.reverse) :
    stripCore l = l := by
  unfold stripCore
  rw [h1, h2, List.reverse_reverse]

theorem stripCore_cons_space (l : List Char)
    (hL : l.dropWhile pyIsSpace = l)
    (hRev : l.reverse.dropWhile pyIsSpace = l.reverse) :
    stripCore (' ' :: l) = l := by
  unfold stripCore
  rw [List.dropWhile_cons, if_pos (by decide), hL, hRev, List.reverse_reverse]

theorem pySplitWs1_timeToken (tok a : List Char)
    (h1 : ∀ x ∈ tok, pyIsSpace x = false) (h2 : tok ≠ [])
    (haL : a.dropWhile pyIsSpace = a) (ha0 : a ≠ []) :
    pySplitWs1 (tok ++ ' ' :: a) = [tok, a] := by
  have hnd : (tok ++ ' ' :: a).dropWhile pyIsSpace = tok ++ ' ' :: a :=
    dropWhile_append_self _ (dropWhile_eq_self_of_forall h1) h2
  have hne : tok ++ ' ' :: a ≠ [] := by simp
  have htk : (tok ++ ' ' :: a).takeWhile (fun c => !pyIsSpace c) = tok :=
    takeWhile_append_stop tok a ' ' (fun x hx => by simp [h1 x hx]) (by decide)
  have hdr : (tok ++ ' ' :: a).dropWhile (fun c => !pyIsSpace c) = ' ' :: a :=
    dropWhile_append_stop tok a ' ' (fun x hx => by simp [h1 x hx]) (by decide)
  have hrest : ((tok ++ ' ' :: a).dropWhile
      (fun c => !pyIsSpace c)).dropWhile pyIsSpace = a := by
    rw [hdr, List.dropWhile_cons, if_pos (show pyIsSpace ' ' = true from rfl), haL]
  unfold pySplitWs1
  simp only [hnd, if_neg hne, htk, hrest, if_neg ha0]

theorem parseRawItemCore_timeToken (tok a : List Char)
    (h1 : ∀ x ∈ tok, pyIsSpace x = false) (h2 : tok ≠ [])
    (h3 : tok.length = 5 ∧ tok.getD 2 ' ' = ':'
      ∧ (tok.take 2).all Char.isDigit = true ∧ (tok.drop 3).all Char.isDigit = true)
    (h4 : digitsToNat (tok.take 2) ≤ 23 ∧ digitsToNat (tok.drop 3) ≤ 59)
    (haL : a.dropWhile pyIsSpace = a) (ha0 : a ≠ []) :
    parseRawItemCore (tok ++ ' ' :: a) = Plan.item (some ⟨tok⟩) ⟨a⟩ := by
  unfold parseRawItemCore
  rw [pySplitWs1_timeToken tok a h1 h2 haL ha0]
  dsimp only
  rw [if_pos h3, if_pos h4]

set_option maxHeartbeats 1000000 in
/-- C5: for every plan-entry line of the form
`"08:00 <a>; <b>; 23:59 <c>"` — where `a`, `b`, `c` are non-empty texts
containing no `;`, already stripped of surrounding whitespace, and `b`
carries no leading time prefix — `enter_plans` splits on `;`, recognises the
`HH:MM` prefixes (5 characters, colon at position 2, numeric halves, hour at
most 23, minute at most 59) and yields, in input order,
`[{time:"08:00", text:a}, {time:null, text:b}, {time:"23:59", text:c}]`. -/
theorem enter_plans_parsing (a b c : List Char)
    (ha0 : a ≠ []) (hb0 : b ≠ []) (hc0 : c ≠ [])
    (hsa : ';' ∉ a) (hsb : ';' ∉ b) (hsc : ';' ∉ c)
    (haL : a.dropWhile pyIsSpace = a)
    (haR : a.reverse.dropWhile pyIsSpace = a.reverse)
    (hbL : b.dropWhile pyIsSpace = b)
    (hbR : b.reverse.dropWhile pyIsSpace = b.reverse)
    (hcL : c.dropWhile pyIsSpace = c)
    (hcR : c.reverse.dropWhile pyIsSpace = c.reverse)
    (hbU : parseRawItemCore b = Plan.item none ⟨b⟩) :
    parsePlansCore (('0' :: '8' :: ':' :: '0' :: '0' :: ' ' :: a)
        ++ ';' :: ' ' :: (b ++ ';' :: ' ' :: '2' :: '3' :: ':' :: '5' :: '9' :: ' ' :: c))
      = [Plan.item (some "08:00") ⟨a⟩, Plan.item none ⟨b⟩,
         Plan.item (some "23:59") ⟨c⟩] := by
  have ha0' : a.reverse ≠ [] := by simpa using ha0
  have hc0' : c.reverse ≠ [] := by simpa using hc0
  have hX1 : stripCore ('0' :: '8' :: ':' :: '0' :: '0' :: ' ' ::a)
      = '0' :: '8' :: ':' :: '0' :: '0' :: ' ' ::a := by
    apply stripCore_eq_self_of (dropWhile_cons_false (by decide))
    rw [show ('0' :: '8' :: ':' :: '0' :: '0' :: ' ' ::a) = ['0','8',':','0','0',' '] ++ a
      from rfl, List.reverse_append]
    exact dropWhile_append_self _ haR ha0'
  have hX2 : stripCore (' ' :: b) = b := stripCore_cons_space b hbL hbR
  have hX3R : ('2' :: '3' :: ':' :: '5' :: '9' :: ' ' ::c).reverse.dropWhile pyIsSpace
      = ('2' :: '3' :: ':' :: '5' :: '9' :: ' ' ::c).reverse := by
    rw [show ('2' :: '3' :: ':' :: '5' :: '9' :: ' ' ::c) = ['2','3',':','5','9',' '] ++ c
      from rfl, List.reverse_append]
    exact dropWhile_append_self _ hcR hc0'
  have hX3 : stripCore (' ' :: '2' :: '3' :: ':' :: '5' :: '9' :: ' ' ::c)
      = '2' :: '3' :: ':' :: '5' :: '9' :: ' ' ::c :=
    stripCore_cons_space _ (dropWhile_cons_false (by decide)) hX3R
  have hWL : (('0' :: '8' :: ':' :: '0' :: '0' :: ' ' :: a)
        ++ ';' :: ' ' :: (b ++ ';' :: ' ' :: '2' :: '3' :: ':' :: '5' :: '9' :: ' ' :: c)).dropWhile
        pyIsSpace
      = ('0' :: '8' :: ':' :: '0' :: '0' :: ' ' :: a)
        ++ ';' :: ' ' :: (b ++ ';' :: ' ' :: '2' :: '3' :: ':' :: '5' :: '9' :: ' ' :: c) :=
    dropWhile_cons_false (by decide)
  have hWrev : (('0' :: '8' :: ':' :: '0' :: '0' :: ' ' :: a)
        ++ ';' :: ' ' :: (b ++ ';' :: ' ' :: '2' :: '3' :: ':' :: '5' :: '9' :: ' ' :: c)).reverse.dropWhile
        pyIsSpace
      = (('0' :: '8' :: ':' :: '0' :: '0' :: ' ' :: a)
        ++ ';' :: ' ' :: (b ++ ';' :: ' ' :: '2' :: '3' :: ':' :: '5' :: '9' :: ' ' :: c)).reverse := by
    have e : ('0' :: '8' :: ':' :: '0' :: '0' :: ' ' :: a)
          ++ ';' :: ' ' :: (b ++ ';' :: ' ' :: '2' :: '3' :: ':' :: '5' :: '9' :: ' ' :: c)
        = (('0' :: '8' :: ':' :: '0' :: '0' :: ' ' :: a)
            ++ ';' :: ' ' :: (b ++ [';', ' ', '2', '3', ':', '5', '9', ' '])) ++ c := by
      simp
    rw [e, List.reverse_append]
    exact dropWhile_append_self _ hcR hc0'
  have hs1 : (';' : Char) ∉ ('0' :: '8' :: ':' :: '0' :: '0' :: ' ' ::a) := by
    simp only [List.mem_cons, not_or]
    refine ⟨by decide, by decide, by decide, by decide, by decide, by decide, hsa⟩
  have hs2 : (';' : Char) ∉ (' ' :: b) := by
    simp only [List.mem_cons, not_or]
    exact ⟨by decide, hsb⟩
  have hs3 : (';' : Char) ∉ (' ' :: '2' :: '3' :: ':' :: '5' :: '9' :: ' ' ::c) := by
    simp only [List.mem_cons, not_or]
    refine ⟨by decide, by decide, by decide, by decide, by decide, by decide,
      by decide, hsc⟩
  have hsplit : splitOnCharCore ';'
        (('0' :: '8' :: ':' :: '0' :: '0' :: ' ' :: a)
          ++ ';' :: ' ' :: (b ++ ';' :: ' ' :: '2' :: '3' :: ':' :: '5' :: '9' :: ' ' :: c))
      = [('0' :: '8' :: ':' :: '0' :: '0' :: ' ' ::a), ' ' :: b,
         ' ' :: '2' :: '3' :: ':' :: '5' :: '9' :: ' ' ::c] := by
    have e1 : ('0' :: '8' :: ':' :: '0' :: '0' :: ' ' :: a)
          ++ ';' :: ' ' :: (b ++ ';' :: ' ' :: '2' :: '3' :: ':' :: '5' :: '9' :: ' ' :: c)
        = ('0' :: '8' :: ':' :: '0' :: '0' :: ' ' ::a)
          ++ ';' :: ((' ' :: b)
            ++ ';' :: (' ' :: '2' :: '3' :: ':' :: '5' :: '9' :: ' ' ::c)) := by
      simp
    rw [e1, splitOn_append_sep _ _ _ hs1, splitOn_append_sep _ _ _ hs2,
      splitOn_no_sep _ _ hs3]
  have hne_b : b.isEmpty = false := by
    cases b with
    | nil => exact absurd rfl hb0
    | cons x t => rfl
  have hp1 : parseRawItemCore ('0' :: '8' :: ':' :: '0' :: '0' :: ' ' ::a)
      = Plan.item (some "08:00") ⟨a⟩ := by
    have h := parseRawItemCore_timeToken ['0','8',':','0','0'] a
      (by decide) (by decide) (by decide) (by decide) haL ha0
    rw [show (⟨['0','8',':','0','0']⟩ : String) = "08:00" from rfl] at h
    exact h
  have hp3 : parseRawItemCore ('2' :: '3' :: ':' :: '5' :: '9' :: ' ' ::c)
      = Plan.item (some "23:59") ⟨c⟩ := by
    have h := parseRawItemCore_timeToken ['2','3',':','5','9'] c
      (by decide) (by decide) (by decide) (by decide) hcL hc0
    rw [show (⟨['2','3',':','5','9']⟩ : String) = "23:59" from rfl] at h
    exact h
  unfold parsePlansCore
  rw [stripCore_eq_self_of hWL hWrev, hsplit]
  simp only [List.map_cons, List.map_nil, hX1, hX2, hX3]
  simp only [List.filter, List.isEmpty_cons, hne_b, Bool.not_false]
  simp only [List.map_cons, List.map_nil, hp1, hbU, hp3]

/-- C5 (witness): the concrete line `"08:00 Item A; Item B; 23:59 Item C"`
parses to the claimed three items in order. -/
theorem enter_plans_parsing_witness :
    enterPlansParse "08:00 Item A; Item B; 23:59 Item C"
      = [Plan.item (some "08:00") "Item A", Plan.item none "Item B",
         Plan.item (some "23:59") "Item C"] := by
  have h := enter_plans_parsing "Item A".data "Item B".data "Item C".data
    (by decide) (by decide) (by decide) (by decide) (by decide) (by decide)
    (by decide) (by decide) (by decide) (by decide) (by decide) (by decide)
    (by decide)
  unfold enterPlansParse
  rw [show "08:00 Item A; Item B; 23:59 Item C".data
      = ('0' :: '8' :: ':' :: '0' :: '0' :: ' ' :: "Item A".data)
        ++ ';' :: ' ' :: ("Item B".data
          ++ ';' :: ' ' :: '2' :: '3' :: ':' :: '5' :: '9' :: ' ' :: "Item C".data)
    from by decide]
  exact h
